import Mathlib

/-!
Verification of the expense-analysis engine: transaction validation,
currency normalization, aggregation, classification and metrics.

Shallow embedding of `src/services/file_parser.py`,
`src/services/calculations.py`, `src/services/subcategory_classifier.py`
and `src/services/metrics.py`.  Monetary values are embedded as exact
rationals (ℚ); text is embedded as `String` / `List Char` with ASCII
case folding.
-/

namespace ExpenseApp

/-- The fixed recognized currency symbols, from the character class
`[\$€£¥₹¢₽₩₪₱฿₴₦₨₡₲₵₸₺₼₾₿]` used by `detect_currency_symbol` and
`strip_currency_symbols` in `file_parser.py`. -/
def currencySymbols : List Char :=
  ['$', '€', '£', '¥', '₹', '¢', '₽', '₩', '₪', '₱', '฿',
   '₴', '₦', '₨', '₡', '₲', '₵', '₸', '₺', '₼', '₾', '₿']

/-- ASCII whitespace, embedding the `\s` class of the stripping pattern. -/
def isWsChar (c : Char) : Bool :=
  c == ' ' || c == '\t' || c == '\n' || c == '\r' ||
  c == Char.ofNat 11 || c == Char.ofNat 12

/-- A spreadsheet cell: raw text, a parsed calendar date, or a number. -/
inductive Cell where
  | str : String → Cell
  | date : Nat → Nat → Nat → Cell
  | num : ℚ → Cell
deriving DecidableEq, Repr

/-- Currency symbols occurring in the string form of one cell, in order.
Numeric and date cells render without currency characters, so only raw
text cells contribute (mirrors `value_series.astype(str)` followed by
`re.findall(currency_pattern, value)`). -/
def cellSymbols (c : Cell) : List Char :=
  match c with
  | .str s => s.data.filter (fun ch => currencySymbols.contains ch)
  | _ => []

/-- Insert an element into an accumulator keeping one copy of each,
embedding set insertion element by element (first-occurrence order; only
count and membership are consumed by the source). -/
def insertDistinct {α : Type} [DecidableEq α] (acc : List α) (c : α) : List α :=
  if c ∈ acc then acc else acc ++ [c]

/-- The distinct recognized currency symbols observed across a value
column, embedding the `detected_currencies` set of
`detect_currency_symbol`. -/
def detectedCurrencies (col : List Cell) : List Char :=
  col.foldl (fun acc c => (cellSymbols c).foldl insertDistinct acc) []

/-- The fixed multiple-currency error text of `detect_currency_symbol`. -/
def multipleCurrenciesMsg : String :=
  "Multiple currencies detected. Please ensure all values use the same currency."

/-- Embedding of `detect_currency_symbol`: no symbol observed yields
none, exactly one distinct symbol yields it, two or more distinct
symbols raise the fixed error. -/
def detect_currency_symbol (col : List Cell) : Except String (Option Char) :=
  match detectedCurrencies col with
  | [] => .ok none
  | [c] => .ok (some c)
  | _ => .error multipleCurrenciesMsg

/-- Embedding of `strip_currency_symbols` on one string: remove every
recognized currency symbol and every whitespace character, from the
character class `[\$€£¥₹¢₽₩₪₱฿₴₦₨₡₲₵₸₺₼₾₿\s]`. -/
def strip_currency_symbols (s : List Char) : List Char :=
  s.filter (fun c => !(currencySymbols.contains c || isWsChar c))

/-- Digit run to a natural number, most significant first. -/
def digitsToNat (l : List Char) : Nat :=
  l.foldl (fun n c => 10 * n + (c.toNat - 48)) 0

/-- Embedding of `pd.to_numeric` on a single entry, for plain decimal
numerals: an optional sign, then digits with at most one decimal point
and at least one digit overall.  The numeric value is exact (ℚ). -/
def parse_numeric (s : List Char) : Option ℚ :=
  let core : ℚ → List Char → Option ℚ := fun sgn body =>
    match body.splitOn '.' with
    | [ip] =>
        if ip.all Char.isDigit && !ip.isEmpty then
          some (sgn * (digitsToNat ip : ℚ))
        else none
    | [ip, fp] =>
        if ip.all Char.isDigit && fp.all Char.isDigit &&
            !(ip.isEmpty && fp.isEmpty) then
          some (sgn * ((digitsToNat ip : ℚ) +
            (digitsToNat fp : ℚ) / ((10 : ℚ) ^ fp.length)))
        else none
    | _ => none
  match s with
  | '-' :: t => core (-1) t
  | '+' :: t => core 1 t
  | t => core 1 t

/-- The property that a recognized currency symbol `ch` occurs somewhere
in the string form of some cell of the column. -/
def cellHasSym (ch : Char) (c : Cell) : Prop :=
  match c with
  | .str s => ch ∈ s.data
  | _ => False

/-- `ch` is a recognized currency symbol observed anywhere in the column. -/
def symOccurs (ch : Char) (col : List Cell) : Prop :=
  ch ∈ currencySymbols ∧ ∃ c ∈ col, cellHasSym ch c

theorem mem_insertDistinct {α : Type} [DecidableEq α] {ch c : α} {acc : List α} :
    ch ∈ insertDistinct acc c ↔ ch ∈ acc ∨ ch = c := by
  unfold insertDistinct
  split
  · constructor
    · exact fun h => Or.inl h
    · rintro (h | rfl)
      · exact h
      · assumption
  · simp [or_comm]

theorem nodup_insertDistinct {α : Type} [DecidableEq α] {c : α} {acc : List α} (h : acc.Nodup) :
    (insertDistinct acc c).Nodup := by
  unfold insertDistinct
  split
  · exact h
  · simpa [List.nodup_append] using ⟨h, by assumption⟩

theorem mem_foldl_insertDistinct {α : Type} [DecidableEq α] {ch : α} :
    ∀ (l : List α) (acc : List α),
      ch ∈ l.foldl insertDistinct acc ↔ ch ∈ acc ∨ ch ∈ l := by
  intro l
  induction l with
  | nil => simp
  | cons c t ih =>
    intro acc
    simp only [List.foldl_cons, ih, mem_insertDistinct, List.mem_cons]
    tauto

theorem nodup_foldl_insertDistinct {α : Type} [DecidableEq α] :
    ∀ (l : List α) (acc : List α), acc.Nodup →
      (l.foldl insertDistinct acc).Nodup := by
  intro l
  induction l with
  | nil => exact fun acc h => h
  | cons c t ih => exact fun acc h => ih _ (nodup_insertDistinct h)

theorem mem_cellSymbols {ch : Char} {c : Cell} :
    ch ∈ cellSymbols c ↔ ch ∈ currencySymbols ∧ cellHasSym ch c := by
  cases c with
  | str s => simp [cellSymbols, cellHasSym, List.mem_filter, and_comm]
  | date y m d => simp [cellSymbols, cellHasSym]
  | num q => simp [cellSymbols, cellHasSym]

theorem mem_detectedCurrencies {ch : Char} (col : List Cell) :
    ch ∈ detectedCurrencies col ↔ symOccurs ch col := by
  have key : ∀ (l : List Cell) (acc : List Char),
      ch ∈ l.foldl (fun acc c => (cellSymbols c).foldl insertDistinct acc) acc ↔
        ch ∈ acc ∨ ∃ c ∈ l, ch ∈ cellSymbols c := by
    intro l
    induction l with
    | nil => simp
    | cons c t ih =>
      intro acc
      simp only [List.foldl_cons, ih, mem_foldl_insertDistinct, List.mem_cons]
      constructor
      · rintro ((h | h) | h)
        · exact Or.inl h
        · exact Or.inr ⟨c, Or.inl rfl, h⟩
        · rcases h with ⟨d, hd, hch⟩
          exact Or.inr ⟨d, Or.inr hd, hch⟩
      · rintro (h | ⟨d, (rfl | hd), hch⟩)
        · exact Or.inl (Or.inl h)
        · exact Or.inl (Or.inr hch)
        · exact Or.inr ⟨d, hd, hch⟩
  unfold detectedCurrencies
  rw [key]
  simp only [List.not_mem_nil, false_or, symOccurs]
  constructor
  · rintro ⟨c, hc, hch⟩
    rcases mem_cellSymbols.mp hch with ⟨h1, h2⟩
    exact ⟨h1, c, hc, h2⟩
  · rintro ⟨h1, c, hc, h2⟩
    exact ⟨c, hc, mem_cellSymbols.mpr ⟨h1, h2⟩⟩

theorem nodup_detectedCurrencies (col : List Cell) :
    (detectedCurrencies col).Nodup := by
  have key : ∀ (l : List Cell) (acc : List Char), acc.Nodup →
      (l.foldl (fun acc c => (cellSymbols c).foldl insertDistinct acc) acc).Nodup := by
    intro l
    induction l with
    | nil => exact fun acc h => h
    | cons c t ih => exact fun acc h => ih _ (nodup_foldl_insertDistinct _ _ h)
  exact key col [] List.nodup_nil

/-- C2: a value column with two or more distinct recognized currency
symbols anywhere fails with exactly the fixed multiple-currency message;
a column with no symbol yields none and a column with a single distinct
symbol yields that symbol. -/
theorem currency_detection_cases (col : List Cell) :
    ((∀ ch, ¬ symOccurs ch col) → detect_currency_symbol col = .ok none) ∧
    (∀ ch, symOccurs ch col → (∀ ch', symOccurs ch' col → ch' = ch) →
      detect_currency_symbol col = .ok (some ch)) ∧
    (∀ c₁ c₂, symOccurs c₁ col → symOccurs c₂ col → c₁ ≠ c₂ →
      detect_currency_symbol col = .error multipleCurrenciesMsg) := by
  have hmem : ∀ ch, ch ∈ detectedCurrencies col ↔ symOccurs ch col :=
    fun ch => mem_detectedCurrencies col
  have hnd := nodup_detectedCurrencies col
  unfold detect_currency_symbol
  rcases hd : detectedCurrencies col with _ | ⟨x, _ | ⟨y, t⟩⟩
  · refine ⟨fun _ => rfl, ?_, ?_⟩
    · intro ch hch _
      exact absurd ((hmem ch).mpr hch) (by simp [hd])
    · intro c₁ c₂ h₁ _ _
      exact absurd ((hmem c₁).mpr h₁) (by simp [hd])
  · refine ⟨?_, ?_, ?_⟩
    · intro hnone
      have : x ∈ detectedCurrencies col := by simp [hd]
      exact absurd ((hmem x).mp this) (hnone x)
    · intro ch hch _
      have : ch ∈ detectedCurrencies col := (hmem ch).mpr hch
      rw [hd] at this
      simp only [List.mem_singleton] at this
      subst this
      rfl
    · intro c₁ c₂ h₁ h₂ hne
      have m₁ : c₁ ∈ detectedCurrencies col := (hmem c₁).mpr h₁
      have m₂ : c₂ ∈ detectedCurrencies col := (hmem c₂).mpr h₂
      rw [hd] at m₁ m₂
      simp only [List.mem_singleton] at m₁ m₂
      exact absurd (m₁.trans m₂.symm) hne
  · refine ⟨?_, ?_, fun _ _ _ _ _ => rfl⟩
    · intro hnone
      have : x ∈ detectedCurrencies col := by simp [hd]
      exact absurd ((hmem x).mp this) (hnone x)
    · intro ch hch huniq
      have mx : x ∈ detectedCurrencies col := by simp [hd]
      have my : y ∈ detectedCurrencies col := by simp [hd]
      have hx := huniq x ((hmem x).mp mx)
      have hy := huniq y ((hmem y).mp my)
      rw [hd] at hnd
      rcases List.nodup_cons.mp hnd with ⟨hxny, _⟩
      have hxy : x ≠ y := fun h => hxny (h ▸ List.mem_cons_self y t)
      exact absurd (hx.trans hy.symm) hxy

/-- Witness for `currency_detection_cases` at the column
`["$100.00", "€50.00"]`. -/
theorem currency_detection_cases_witness :
    detect_currency_symbol [Cell.str "$100.00", Cell.str "€50.00"] =
      .error multipleCurrenciesMsg :=
  (currency_detection_cases _).2.2 '$' '€'
    ⟨by decide, Cell.str "$100.00", by simp, by simp [cellHasSym]⟩
    ⟨by decide, Cell.str "€50.00", by simp, by simp [cellHasSym]⟩
    (by decide)

theorem currency_not_digit {x : Char} (h : x ∈ currencySymbols) :
    x.isDigit = false := by
  fin_cases h <;> decide

theorem ws_not_digit {x : Char} (h : isWsChar x = true) : x.isDigit = false := by
  simp only [isWsChar, Bool.or_eq_true, beq_iff_eq] at h
  rcases h with ((((h | h) | h) | h) | h) | h <;> subst h <;> decide

/-- Characters of a plain decimal numeral (digits, sign, decimal point)
are neither recognized currency symbols nor whitespace, so stripping
keeps them. -/
theorem keep_numeral_char {x : Char}
    (hx : x.isDigit ∨ x = '-' ∨ x = '+' ∨ x = '.') :
    (currencySymbols.contains x || isWsChar x) = false := by
  rcases hx with hx | hx | hx | hx
  · apply Bool.or_eq_false_iff.mpr
    constructor
    · by_contra hc
      rw [Bool.not_eq_false] at hc
      replace hc : x ∈ currencySymbols := by simpa using hc
      rw [currency_not_digit hc] at hx
      exact Bool.false_ne_true hx
    · by_contra hw
      rw [Bool.not_eq_false] at hw
      rw [ws_not_digit hw] at hx
      exact Bool.false_ne_true hx
  all_goals subst hx; decide

/-- C3: for a value entry consisting of a recognized currency symbol,
optional whitespace and a decimal numeral, currency stripping returns
exactly the numeral, so re-parsing recovers the original magnitude and
sign. -/
theorem currency_strip_roundtrip (c : Char) (ws num : List Char) (v : ℚ)
    (hc : c ∈ currencySymbols)
    (hws : ∀ x ∈ ws, isWsChar x = true)
    (hnum : ∀ x ∈ num, x.isDigit ∨ x = '-' ∨ x = '+' ∨ x = '.')
    (hv : parse_numeric num = some v) :
    parse_numeric (strip_currency_symbols (c :: (ws ++ num))) = some v := by
  have hstrip : strip_currency_symbols (c :: (ws ++ num)) = num := by
    unfold strip_currency_symbols
    rw [List.filter_cons]
    have hcfalse : (!(currencySymbols.contains c || isWsChar c)) = false := by
      simp [hc]
    rw [hcfalse]
    simp only [Bool.false_eq_true, if_false, List.filter_append]
    have h1 : ws.filter (fun x => !(currencySymbols.contains x || isWsChar x)) = [] := by
      rw [List.filter_eq_nil_iff]
      intro x hx
      simp [hws x hx]
    have h2 : num.filter (fun x => !(currencySymbols.contains x || isWsChar x)) = num := by
      rw [List.filter_eq_self]
      intro x hx
      rw [keep_numeral_char (hnum x hx)]
      rfl
    rw [h1, h2, List.nil_append]
  rw [hstrip]
  exact hv

/-- Witness for `currency_strip_roundtrip` at the entry "$-120.50",
recovering -120.50. -/
theorem currency_strip_roundtrip_witness :
    parse_numeric (strip_currency_symbols ('$' :: ([] ++ "-120.50".data))) =
      some (-(241 / 2)) :=
  currency_strip_roundtrip '$' [] "-120.50".data (-(241 / 2))
    (by decide) (by intro x hx; cases hx) (by decide)
    (by with_unfolding_all decide)

/-- A calendar date of a validated transaction. -/
structure Date where
  year : Nat
  month : Nat
  day : Nat
deriving DecidableEq, Repr

/-- A canonical transaction after validation and currency normalization
(one row of the validated DataFrame). -/
structure Txn where
  date : Date
  description : String
  category : String
  value : ℚ
deriving DecidableEq, Repr

/-- A calendar year-month bucket, the grouping key of all monthly
aggregates (embedding `date.dt.to_period('M')`). -/
abbrev Period := Nat × Nat

/-- The period of a transaction. -/
def txnPeriod (t : Txn) : Period := (t.date.year, t.date.month)

/-- Strict chronological order on periods: earlier year, or same year
and earlier month. -/
def pLt (p q : Period) : Prop := p.1 < q.1 ∨ (p.1 = q.1 ∧ p.2 < q.2)

instance : DecidablePred fun pq : Period × Period => pLt pq.1 pq.2 := by
  intro pq
  unfold pLt
  infer_instance

instance pLtDecidable (p q : Period) : Decidable (pLt p q) := by
  unfold pLt
  infer_instance

/-- Non-strict chronological order on periods. -/
def pLe (p q : Period) : Prop := pLt p q ∨ p = q

/-- Insert a period into a chronologically sorted duplicate-free list,
keeping it sorted and duplicate-free.  Folding this over the month
column embeds the sorted unique grouping keys that `groupby('month')`
iterates over. -/
def insertPeriod (p : Period) : List Period → List Period
  | [] => [p]
  | q :: t =>
    if p = q then q :: t
    else if pLt p q then p :: q :: t
    else q :: insertPeriod p t

/-- The ascending duplicate-free list of periods of a transaction list. -/
def sortedPeriods (df : List Txn) : List Period :=
  (df.map txnPeriod).foldr insertPeriod []

/-- The values of the transactions falling in period `p`. -/
def periodValues (df : List Txn) (p : Period) : List ℚ :=
  (df.filter (fun t => txnPeriod t = p)).map Txn.value

/-- One row of the monthly summary table. -/
structure SummaryRow where
  month : Period
  total_income : ℚ
  total_expenses : ℚ
  net_income : ℚ
deriving DecidableEq, Repr

/-- Embedding of `calculate_monthly_summary`: group by period; per
period, `total_income` is the sum of positive values, `total_expenses`
the absolute sum of negative values, `net_income` the sum of all
values. -/
def calculate_monthly_summary (df : List Txn) : List SummaryRow :=
  (sortedPeriods df).map (fun p =>
    let vs := periodValues df p
    { month := p
      total_income := (vs.filter (fun v => 0 < v)).sum
      total_expenses := |(vs.filter (fun v => v < 0)).sum|
      net_income := vs.sum })

theorem sum_filter_pos_add_neg (l : List ℚ) :
    l.sum = (l.filter (fun v => 0 < v)).sum + (l.filter (fun v => v < 0)).sum := by
  induction l with
  | nil => simp
  | cons x t ih =>
    by_cases hp : 0 < x
    · have hn : ¬(x < 0) := by linarith
      simp [List.filter_cons, hp, hn]
      linarith [ih]
    · by_cases hn : x < 0
      · simp [List.filter_cons, hp, hn]
        linarith [ih]
      · have hx : x = 0 := by linarith
        simp [List.filter_cons, hp, hn, hx]
        linarith [ih]

theorem sum_filter_neg_nonpos (l : List ℚ) :
    (l.filter (fun v => v < 0)).sum ≤ 0 := by
  induction l with
  | nil => simp
  | cons x t ih =>
    rw [List.filter_cons]
    split
    · rename_i hx
      simp only [decide_eq_true_eq] at hx
      rw [List.sum_cons]
      linarith
    · exact ih

/-- C1: every row of the monthly summary of a valid (non-empty)
transaction set satisfies `net_income = total_income - total_expenses`. -/
theorem monthly_summary_net_invariant (df : List Txn) (hdf : df ≠ [])
    (r : SummaryRow) (hr : r ∈ calculate_monthly_summary df) :
    r.net_income = r.total_income - r.total_expenses := by
  unfold calculate_monthly_summary at hr
  rcases List.mem_map.mp hr with ⟨p, _, hp⟩
  subst hp
  simp only
  rw [abs_of_nonpos (sum_filter_neg_nonpos _), sub_neg_eq_add]
  exact sum_filter_pos_add_neg _

/-- Witness for `monthly_summary_net_invariant` on the two-month dataset
of the spec's example (values -100, 3000, -50). -/
theorem monthly_summary_net_invariant_witness :
    (SummaryRow.mk (2026, 1) 3000 100 2900).net_income =
      (SummaryRow.mk (2026, 1) 3000 100 2900).total_income -
        (SummaryRow.mk (2026, 1) 3000 100 2900).total_expenses :=
  monthly_summary_net_invariant
    [⟨⟨2026, 1, 15⟩, "a", "A", -100⟩,
     ⟨⟨2026, 1, 30⟩, "b", "B", 3000⟩,
     ⟨⟨2026, 2, 5⟩, "c", "C", -50⟩]
    (by decide)
    (SummaryRow.mk (2026, 1) 3000 100 2900)
    (by simp [calculate_monthly_summary, sortedPeriods, insertPeriod, txnPeriod,
          periodValues, pLt, List.filter]; norm_num)

/-- A raw tabular structure as loaded from the upload: ordered columns,
each a name with its cells. -/
structure Frame where
  cols : List (String × List Cell)
deriving DecidableEq, Repr

/-- The exact expected header of `validate_file`. -/
def expected_columns : List String := ["date", "description", "category", "value"]

/-- Embedding of `len(df)`: the number of data rows. -/
def numRows (f : Frame) : Nat :=
  match f.cols with
  | [] => 0
  | c :: _ => c.2.length

/-- Column access `df[name]`. -/
def getCol (f : Frame) (name : String) : List Cell :=
  match f.cols.find? (fun c => c.1 == name) with
  | some c => c.2
  | none => []

/-- Column assignment `df[name] = cells` (the value of the mutated frame). -/
def setCol (f : Frame) (name : String) (cells : List Cell) : Frame :=
  ⟨f.cols.map (fun c => if c.1 == name then (c.1, cells) else c)⟩

/-- Embedding of `pd.to_datetime` on one cell.  Spreadsheet date cells
arrive as parsed dates and pass through; this development does not
exercise textual date formats, so any other cell fails. -/
def parseDateCell (c : Cell) : Option Date :=
  match c with
  | .date y m d => some ⟨y, m, d⟩
  | _ => none

/-- Currency stripping of one cell, `strip_currency_symbols` applied via
`astype(str)`: raw text is stripped; numeric cells render without
currency or whitespace characters and re-parse to themselves. -/
def stripCell (c : Cell) : Cell :=
  match c with
  | .str s => .str ⟨strip_currency_symbols s.data⟩
  | c => c

/-- Embedding of `pd.to_numeric` on one cell. -/
def cellToNum (c : Cell) : Option ℚ :=
  match c with
  | .num q => some q
  | .str s => parse_numeric s.data
  | .date _ _ _ => none

/-- Embedding of `astype(str)` on one cell.  The precise text Python
renders for non-string cells is not observed by any claim; only the
fact that the result is a string cell is. -/
def stringifyCell (c : Cell) : Cell :=
  match c with
  | .str s => .str s
  | .date y m d => .str (toString y ++ "-" ++ toString m ++ "-" ++ toString d)
  | .num q => .str (toString q.num ++ "/" ++ toString q.den)

instance exceptDecEq {ε α : Type} [DecidableEq ε] [DecidableEq α] :
    DecidableEq (Except ε α) := fun x y =>
  match x, y with
  | .ok a, .ok b =>
      if h : a = b then isTrue (by rw [h]) else isFalse (by simp [h])
  | .ok _, .error _ => isFalse (by simp)
  | .error _, .ok _ => isFalse (by simp)
  | .error e, .error e' =>
      if h : e = e' then isTrue (by rw [h]) else isFalse (by simp [h])

/-- The heap of live DataFrame objects; a frame reference is an index. -/
abbrev Heap := List Frame

/-- The column-count error text of `validate_file`, indicating the
expected count of 4. -/
def colCountMsg (n : Nat) : String :=
  "File must have exactly 4 columns (found " ++ toString n ++ ")"

/-- The column-names error text of `validate_file`. -/
def colNamesMsg (names : List String) : String :=
  "Columns must be: date, description, category, value (found: " ++
    String.intercalate ", " names ++ ")"

/-- The empty-file error text of `validate_file`. -/
def emptyFileMsg : String := "File is empty or contains only header row"

/-- The unparseable-dates error text of `validate_file`. -/
def invalidDatesMsg : String := "Invalid dates found in date column"

/-- The unparseable-values error text of `validate_file`. -/
def invalidValuesMsg : String := "Invalid numeric values found in value column"

/-- The date coercion `df['date'] = pd.to_datetime(df['date'])` given
the parsed dates. -/
def dateStage (f : Frame) (dates : List Date) : Frame :=
  setCol f "date" (dates.map (fun d => Cell.date d.year d.month d.day))

/-- The conditional stripping step `if currency_symbol: df['value'] =
strip_currency_symbols(df['value'])`. -/
def stripStage (f : Frame) (sym : Option Char) : Frame :=
  match sym with
  | some _ => setCol f "value" ((getCol f "value").map stripCell)
  | none => f

/-- The final coercions on the success path of `validate_file`:
`df['value'] = pd.to_numeric(...)`, then `df['description']` and
`df['category']` to strings. -/
def finalizeFrame (f : Frame) (nums : List ℚ) : Frame :=
  let f3 := setCol f "value" (nums.map Cell.num)
  let f4 := setCol f3 "description" ((getCol f3 "description").map stringifyCell)
  setCol f4 "category" ((getCol f4 "category").map stringifyCell)

/-- Embedding of `validate_file`.  The Python function assigns into the
columns of its argument (`df['date'] = ...`, `df['value'] = ...`), i.e.
it mutates the caller's object and returns that same object, so the
embedding passes a heap of frames and a frame reference and returns the
updated heap together with either the error message or the returned
reference and detected symbol.  Failures raised after an assignment
leave the assignments so far in the heap, as in Python. -/
def validate_file (h : Heap) (r : Nat) : Heap × Except String (Nat × Option Char) :=
  match h.get? r with
  | none => (h, .error "invalid frame reference")
  | some f =>
    if f.cols.length ≠ 4 then (h, .error (colCountMsg f.cols.length))
    else if f.cols.map Prod.fst ≠ expected_columns then
      (h, .error (colNamesMsg (f.cols.map Prod.fst)))
    else if numRows f = 0 then (h, .error emptyFileMsg)
    else
      match (getCol f "date").mapM parseDateCell with
      | none => (h, .error invalidDatesMsg)
      | some dates =>
        match detect_currency_symbol (getCol (dateStage f dates) "value") with
        | .error e => (h.set r (dateStage f dates), .error e)
        | .ok sym =>
          match (getCol (stripStage (dateStage f dates) sym) "value").mapM cellToNum with
          | none =>
              ((h.set r (dateStage f dates)).set r (stripStage (dateStage f dates) sym),
               .error invalidValuesMsg)
          | some nums =>
              (((h.set r (dateStage f dates)).set r
                  (stripStage (dateStage f dates) sym)).set r
                  (finalizeFrame (stripStage (dateStage f dates) sym) nums),
               .ok (r, sym))

/-- C4: the validator applies its structural rules in order with first
failure winning: wrong column count fails with the count message; four
columns with wrong names or order fail with the names message; a correct
header with zero data rows fails with the empty-file message. -/
theorem validator_rule_order :
    (∀ (h : Heap) (r : Nat) (f : Frame), h.get? r = some f →
      f.cols.length ≠ 4 →
      (validate_file h r).2 = .error (colCountMsg f.cols.length)) ∧
    (∀ (h : Heap) (r : Nat) (f : Frame), h.get? r = some f →
      f.cols.length = 4 → f.cols.map Prod.fst ≠ expected_columns →
      (validate_file h r).2 = .error (colNamesMsg (f.cols.map Prod.fst))) ∧
    (∀ (h : Heap) (r : Nat) (f : Frame), h.get? r = some f →
      f.cols.map Prod.fst = expected_columns → numRows f = 0 →
      (validate_file h r).2 = .error emptyFileMsg) := by
  refine ⟨?_, ?_, ?_⟩
  · intro h r f hf hlen
    unfold validate_file
    rw [hf]
    simp [hlen]
  · intro h r f hf hlen hnames
    unfold validate_file
    rw [hf]
    simp [hlen, hnames]
  · intro h r f hf hnames hrows
    have hlen : f.cols.length = 4 := by
      have := congrArg List.length hnames
      simpa using this
    unfold validate_file
    rw [hf]
    simp [hlen, hnames, hrows]

/-- A 3-column frame. -/
def frame3 : Frame := ⟨[("date", []), ("description", []), ("value", [])]⟩

/-- A frame whose four column names are the right set in the wrong order. -/
def frameReordered : Frame :=
  ⟨[("description", []), ("date", []), ("category", []), ("value", [])]⟩

/-- A frame with the correct header and no data rows. -/
def frameHeaderOnly : Frame :=
  ⟨[("date", []), ("description", []), ("category", []), ("value", [])]⟩

/-- Witness for `validator_rule_order`: a 3-column frame, a frame with
the right names in the wrong order, and a correct header with no data
rows. -/
theorem validator_rule_order_witness :
    (validate_file [frame3] 0).2 = .error (colCountMsg 3) ∧
    (validate_file [frameReordered] 0).2 =
      .error (colNamesMsg ["description", "date", "category", "value"]) ∧
    (validate_file [frameHeaderOnly] 0).2 = .error emptyFileMsg :=
  ⟨validator_rule_order.1 [frame3] 0 frame3 rfl (by decide),
   validator_rule_order.2.1 [frameReordered] 0 frameReordered rfl
     (by decide) (by decide),
   validator_rule_order.2.2 [frameHeaderOnly] 0 frameHeaderOnly rfl
     (by decide) (by decide)⟩

/-- A well-formed one-row frame whose validation succeeds. -/
def c9frame : Frame :=
  ⟨[("date", [Cell.date 2026 1 15]), ("description", [Cell.str "Coffee"]),
    ("category", [Cell.str "Food"]), ("value", [Cell.str "$-5.50"])]⟩

set_option maxRecDepth 8000 in
/-- C9 counterexample: validation is not side-effect free.  On the
one-row frame `c9frame` the validator succeeds but the caller's frame
has been modified in place: its value column now holds the parsed number
rather than the original "$-5.50" text. -/
theorem validator_purity_counterexample :
    (validate_file [c9frame] 0).2 = .ok (0, some '$') ∧
    (validate_file [c9frame] 0).1 ≠ [c9frame] := by
  constructor
  · with_unfolding_all decide
  · with_unfolding_all decide

/-- C9 amended: on success the validator returns the same reference it
was given (the same object), leaves every other heap entry unchanged,
and replaces the caller's frame in place by the canonical one: dates
parsed, values currency-stripped and numeric, description and category
coerced to text. -/
theorem validator_inplace_update (h : Heap) (r r' : Nat) (h' : Heap)
    (sym : Option Char) (hrun : validate_file h r = (h', .ok (r', sym))) :
    r' = r ∧
    (∀ j, j ≠ r → h'.get? j = h.get? j) ∧
    ∃ f dates nums, h.get? r = some f ∧
      (getCol f "date").mapM parseDateCell = some dates ∧
      (getCol (stripStage (dateStage f dates) sym) "value").mapM cellToNum =
        some nums ∧
      h'.get? r =
        some (finalizeFrame (stripStage (dateStage f dates) sym) nums) := by
  unfold validate_file at hrun
  split at hrun
  · simp at hrun
  rename_i f hget
  split at hrun
  · simp at hrun
  split at hrun
  · simp at hrun
  split at hrun
  · simp at hrun
  split at hrun
  · simp at hrun
  rename_i dates hdates
  split at hrun
  · simp at hrun
  rename_i sym0 hdet
  split at hrun
  · simp at hrun
  rename_i nums hnums
  rw [Prod.mk.injEq] at hrun
  rcases hrun with ⟨hh, hok⟩
  rw [Except.ok.injEq, Prod.mk.injEq] at hok
  rcases hok with ⟨hr', hsym⟩
  subst hr'
  subst hsym
  have hlt : r < h.length := by
    by_contra hge
    rw [List.get?_eq_none.mpr (le_of_not_lt hge)] at hget
    cases hget
  refine ⟨rfl, ?_, f, dates, nums, hget, hdates, hnums, ?_⟩
  · intro j hj
    rw [← hh, List.get?_set_ne _ _ (Ne.symm hj), List.get?_set_ne _ _ (Ne.symm hj),
      List.get?_set_ne _ _ (Ne.symm hj)]
  · rw [← hh]
    have hlt2 : r < ((h.set r (dateStage f dates)).set r
        (stripStage (dateStage f dates) sym0)).length := by
      simpa using hlt
    exact List.get?_set_eq_of_lt _ hlt2

set_option maxRecDepth 8000 in
/-- Witness for `validator_inplace_update` at the concrete heap
`[c9frame]`. -/
theorem validator_inplace_update_witness :
    (0 : Nat) = 0 ∧
    (∀ j, j ≠ 0 →
      ((validate_file [c9frame] 0).1).get? j = ([c9frame] : Heap).get? j) ∧
    ∃ f dates nums, ([c9frame] : Heap).get? 0 = some f ∧
      (getCol f "date").mapM parseDateCell = some dates ∧
      (getCol (stripStage (dateStage f dates) (some '$')) "value").mapM cellToNum =
        some nums ∧
      ((validate_file [c9frame] 0).1).get? 0 =
        some (finalizeFrame (stripStage (dateStage f dates) (some '$')) nums) :=
  validator_inplace_update [c9frame] 0 0 (validate_file [c9frame] 0).1 (some '$')
    (by with_unfolding_all decide)

/-- The monthly expense series of `calculate_rolling_average`: filter to
expenses (value < 0), group by period in ascending order, sum absolute
values per period.  Empty input or no expenses yield the empty series. -/
def monthlyExpenseTotals (df : List Txn) : List (Period × ℚ) :=
  (sortedPeriods (df.filter (fun t => t.value < 0))).map (fun p =>
    (p, ((periodValues (df.filter (fun t => t.value < 0)) p).map (fun v => |v|)).sum))

/-- Embedding of `monthly_expenses.rolling(window=window).mean().dropna()`:
one entry per length-`window` contiguous trailing window of the series,
labelled by the window's last period, valued by the window's arithmetic
mean; positions without `window` trailing entries produce nothing. -/
def rollingMeans (w : Nat) : List (Period × ℚ) → List (Period × ℚ)
  | [] => []
  | p :: t =>
    if 0 < w ∧ w ≤ t.length + 1 then
      match ((p :: t).take w).getLast? with
      | some pv =>
          (pv.1, (((p :: t).take w).map Prod.snd).sum / (w : ℚ)) :: rollingMeans w t
      | none => rollingMeans w t
    else rollingMeans w t

/-- Embedding of `calculate_rolling_average`. -/
def calculate_rolling_average (df : List Txn) (window : Nat) : List (Period × ℚ) :=
  rollingMeans window (monthlyExpenseTotals df)

/-- The spec's 4-period expense series dataset: monthly expenses 100,
200, 150, 180. -/
def df4 : List Txn :=
  [⟨⟨2026, 1, 15⟩, "a", "A", -100⟩,
   ⟨⟨2026, 2, 10⟩, "b", "B", -200⟩,
   ⟨⟨2026, 3, 5⟩, "c", "C", -150⟩,
   ⟨⟨2026, 4, 12⟩, "d", "D", -180⟩]

/-- C5 counterexample: on the 4-period series [100, 200, 150, 180] with
window 3 the second output value is 530/3 = 176.666…, not exactly
176.67, so the output is not exactly [(period3, 150.0), (period4,
176.67)]. -/
theorem rolling_average_claim_counterexample :
    calculate_rolling_average df4 3 =
      [((2026, 3), 150), ((2026, 4), 530 / 3)] ∧
    ((530 : ℚ) / 3 ≠ 17667 / 100) := by
  constructor
  · simp [calculate_rolling_average, monthlyExpenseTotals, df4, sortedPeriods,
      insertPeriod, txnPeriod, periodValues, pLt, rollingMeans, List.filter]
    norm_num
  · norm_num

theorem length_rollingMeans (w : Nat) (hw : 0 < w) (s : List (Period × ℚ)) :
    (rollingMeans w s).length = s.length + 1 - w := by
  induction s with
  | nil => simp [rollingMeans]; omega
  | cons p t ih =>
    rw [rollingMeans]
    by_cases hfit : w ≤ t.length + 1
    · rw [if_pos ⟨hw, hfit⟩]
      rcases hw' : w with _ | w'
      · omega
      · subst hw'
        have htake : ((p :: t).take (w' + 1)) = p :: t.take w' := rfl
        rw [htake]
        rcases hlast : (p :: t.take w').getLast? with _ | pv
        · simp at hlast
        · simp only [List.length_cons, ih]
          omega
    · rw [if_neg (by tauto)]
      rw [ih]
      simp only [List.length_cons]
      omega

theorem mem_rollingMeans (w : Nat) (s : List (Period × ℚ))
    (pv : Period × ℚ) (hpv : pv ∈ rollingMeans w s) :
    ∃ k pe, ((s.drop k).take w).getLast? = some pe ∧
      pv = (pe.1, (((s.drop k).take w).map Prod.snd).sum / (w : ℚ)) := by
  induction s with
  | nil => simp [rollingMeans] at hpv
  | cons p t ih =>
    rw [rollingMeans] at hpv
    by_cases hfit : 0 < w ∧ w ≤ t.length + 1
    · rw [if_pos hfit] at hpv
      rcases hlast : ((p :: t).take w).getLast? with _ | pe
      · rw [hlast] at hpv
        rcases ih hpv with ⟨k, pe, hk, hval⟩
        exact ⟨k + 1, pe, hk, hval⟩
      · rw [hlast] at hpv
        rcases List.mem_cons.mp hpv with heq | htail
        · exact ⟨0, pe, by simpa using hlast, by simpa using heq⟩
        · rcases ih htail with ⟨k, pe', hk, hval⟩
          exact ⟨k + 1, pe', hk, hval⟩
    · rw [if_neg hfit] at hpv
      rcases ih hpv with ⟨k, pe, hk, hval⟩
      exact ⟨k + 1, pe, hk, hval⟩

/-- C5 amended: the rolling average is the trailing simple moving
average, with the given window, of the expense-only monthly series in
ascending period order: every output entry is the mean of a length-w
contiguous window labelled by its last period, exactly `series length
+ 1 - window` entries are produced (so every period without `window`
trailing entries, in particular the first `window - 1`, is omitted),
and the 4-period series [100, 200, 150, 180] with window 3 yields
[(period3, 150.0), (period4, 530/3)], whose second value rounds to
176.67 at two decimals. -/
theorem rolling_average_spec :
    (∀ (df : List Txn) (w : Nat), 0 < w →
      (calculate_rolling_average df w).length =
        (monthlyExpenseTotals df).length + 1 - w) ∧
    (∀ (df : List Txn) (w : Nat) (pv : Period × ℚ),
      pv ∈ calculate_rolling_average df w →
      ∃ k pe,
        (((monthlyExpenseTotals df).drop k).take w).getLast? = some pe ∧
        pv = (pe.1,
          ((((monthlyExpenseTotals df).drop k).take w).map Prod.snd).sum / (w : ℚ))) ∧
    (calculate_rolling_average df4 3 = [((2026, 3), 150), ((2026, 4), 530 / 3)] ∧
      ((round ((530 : ℚ) / 3 * 100) : ℚ) / 100 = 17667 / 100)) := by
  refine ⟨?_, ?_, ?_, ?_⟩
  · intro df w hw
    exact length_rollingMeans w hw _
  · intro df w pv hpv
    exact mem_rollingMeans w _ pv hpv
  · simp [calculate_rolling_average, monthlyExpenseTotals, df4, sortedPeriods,
      insertPeriod, txnPeriod, periodValues, pLt, rollingMeans, List.filter]
    norm_num
  · norm_num [round_eq]

/-- Witness for `rolling_average_spec` at the concrete series of `df4`
with window 3. -/
theorem rolling_average_spec_witness :
    (calculate_rolling_average df4 3).length =
      (monthlyExpenseTotals df4).length + 1 - 3 :=
  rolling_average_spec.1 df4 3 (by decide)

/-- Word characters of the `\w` class (ASCII). -/
def isWordChar (c : Char) : Bool := c.isAlphanum || c == '_'

/-- Embedding of `re.sub(r'[^\w\s]', ' ', description.lower())`: lower
the text and replace every character that is neither a word character
nor whitespace by a space. -/
def normalizeText (s : String) : List Char :=
  s.data.map (fun c =>
    if isWordChar c.toLower || isWsChar c.toLower then c.toLower else ' ')

/-- Lower-cased character list of a string (ASCII case folding). -/
def lowerData (s : String) : List Char := s.data.map Char.toLower

/-- Whether the first list is a character-wise prefix of the second. -/
def isPrefixOfC : List Char → List Char → Bool
  | [], _ => true
  | _ :: _, [] => false
  | a :: as, b :: bs => a == b && isPrefixOfC as bs

/-- Literal substring containment of `needle` in a character list,
embedding Python's `keyword in description_lower`. -/
def containsSub (needle : List Char) : List Char → Bool
  | [] => isPrefixOfC needle []
  | c :: t => isPrefixOfC needle (c :: t) || containsSub needle t

/-- The grocery keyword list of `classify_food_subcategory`. -/
def grocery_keywords : List String :=
  ["grocery", "groceries", "supermarket", "market", "store", "food store"]

/-- The public-transit keyword list of
`classify_transportation_subcategory`. -/
def public_transport_keywords : List String :=
  ["bus", "metro", "subway", "train", "tram", "transit",
   "rail", "metro card", "transit pass", "public transport", "rail pass"]

/-- The ordered keyword groups of `classify_hobbies_subcategory`
(Python dict iteration preserves insertion order). -/
def hobbies_keyword_groups : List (String × List String) :=
  [("Streaming", ["streaming", "music subscription", "video subscription"]),
   ("Fitness", ["gym", "fitness", "yoga", "pilates", "crossfit",
     "workout", "health club", "sports club"]),
   ("Gaming", ["game pass", "gaming", "game subscription", "video game"]),
   ("Educational", ["online course", "learning", "education", "course"]),
   ("Books", ["book", "books", "reading", "audiobook", "ebook", "magazine"]),
   ("News & Media", ["news", "newspaper", "publication"]),
   ("Professional", ["creative cloud", "workspace", "cloud storage", "productivity"])]

/-- Embedding of `classify_food_subcategory`. -/
def classify_food_subcategory (description : String) : String :=
  if grocery_keywords.any (fun k => containsSub k.data (normalizeText description)) then
    "Groceries"
  else "Other Food Sources"

/-- Embedding of `classify_transportation_subcategory`. -/
def classify_transportation_subcategory (description : String) : String :=
  if public_transport_keywords.any
      (fun k => containsSub k.data (normalizeText description)) then
    "Public Transportation"
  else "Private Transportation"

/-- Embedding of `classify_hobbies_subcategory`: the first keyword group
with a matching keyword wins. -/
def classify_hobbies_subcategory (description : String) : String :=
  match hobbies_keyword_groups.find?
      (fun g => g.2.any (fun k => containsSub k.data (normalizeText description))) with
  | some g => g.1
  | none => "Other Subscriptions"

/-- The food category patterns of `add_subcategory_column`. -/
def food_patterns : List String := ["food", "groceries", "dining"]

/-- The transport category patterns of `add_subcategory_column`. -/
def transport_patterns : List String := ["transport"]

/-- The hobbies category patterns of `add_subcategory_column`. -/
def hobbies_patterns : List String := ["hobbies", "subscription", "entertainment"]

/-- Embedding of `classify_row`: first matching category dispatch group
wins — food patterns, then transport, then hobbies, else the category
itself passes through. -/
def classify_row (category description : String) : String :=
  if food_patterns.any (fun p => containsSub p.data (lowerData category)) then
    classify_food_subcategory description
  else if transport_patterns.any (fun p => containsSub p.data (lowerData category)) then
    classify_transportation_subcategory description
  else if hobbies_patterns.any (fun p => containsSub p.data (lowerData category)) then
    classify_hobbies_subcategory description
  else category

/-- Embedding of `add_subcategory_column`: fails on an empty set, else
pairs every transaction with its classified subcategory. -/
def add_subcategory_column (df : List Txn) : Except String (List (Txn × String)) :=
  if df.isEmpty then .error "DataFrame cannot be empty"
  else .ok (df.map (fun t => (t, classify_row t.category t.description)))

/-- C8 counterexample: the category "Food Transport" contains
"transport" case-insensitively, and its description "Metro Transit Pass"
contains public-transit keywords, yet classification yields "Other Food
Sources" because the food dispatch group is checked first. -/
theorem transport_dispatch_counterexample :
    containsSub "transport".data (lowerData "Food Transport") = true ∧
    add_subcategory_column
        [⟨⟨2026, 1, 10⟩, "Metro Transit Pass", "Food Transport", -20⟩] =
      .ok [(⟨⟨2026, 1, 10⟩, "Metro Transit Pass", "Food Transport", -20⟩,
        "Other Food Sources")] ∧
    ("Other Food Sources" : String) ≠ "Public Transportation" := by
  refine ⟨by decide, ?_, by decide⟩
  simp [add_subcategory_column, classify_row, classify_food_subcategory,
    food_patterns, grocery_keywords]
  decide

/-- C8 amended: for every transaction whose category contains
"transport" case-insensitively and none of the food patterns (which
take dispatch precedence), classification applies the transportation
ruleset to the normalized (lower-cased, punctuation replaced by spaces)
description: any public-transit keyword yields "Public Transportation",
otherwise "Private Transportation"; and `add_subcategory_column` pairs
every transaction with its `classify_row` result. -/
theorem transportation_classification :
    (∀ category description : String,
      containsSub "transport".data (lowerData category) = true →
      (∀ p ∈ food_patterns, containsSub p.data (lowerData category) = false) →
      classify_row category description =
        classify_transportation_subcategory description) ∧
    (∀ description : String,
      ((∃ k ∈ public_transport_keywords,
          containsSub k.data (normalizeText description) = true) →
        classify_transportation_subcategory description = "Public Transportation") ∧
      ((∀ k ∈ public_transport_keywords,
          containsSub k.data (normalizeText description) = false) →
        classify_transportation_subcategory description = "Private Transportation")) ∧
    (∀ df rows, add_subcategory_column df = .ok rows →
      ∀ t ∈ df, (t, classify_row t.category t.description) ∈ rows) := by
  refine ⟨?_, ?_, ?_⟩
  · intro category description htr hnf
    unfold classify_row
    rw [if_neg, if_pos]
    · simp only [List.any_eq_true]
      exact ⟨"transport", by simp [transport_patterns], htr⟩
    · simp only [List.any_eq_true, not_exists]
      intro p
      rintro ⟨hp, hcontains⟩
      rw [hnf p hp] at hcontains
      exact Bool.false_ne_true hcontains
  · intro description
    constructor
    · rintro ⟨k, hk, hc⟩
      unfold classify_transportation_subcategory
      rw [if_pos]
      simp only [List.any_eq_true]
      exact ⟨k, hk, hc⟩
    · intro hall
      unfold classify_transportation_subcategory
      rw [if_neg]
      simp only [List.any_eq_true, not_exists]
      rintro k ⟨hk, hc⟩
      rw [hall k hk] at hc
      exact Bool.false_ne_true hc
  · intro df rows hrows t ht
    unfold add_subcategory_column at hrows
    split at hrows
    · cases hrows
    · rw [Except.ok.injEq] at hrows
      subst hrows
      exact List.mem_map.mpr ⟨t, ht, rfl⟩

/-- Witness for `transportation_classification`: "Metro Transit Pass"
under category "Transport" classifies as "Public Transportation", "Gas
Station" as "Private Transportation". -/
theorem transportation_classification_witness :
    classify_row "Transport" "Metro Transit Pass" = "Public Transportation" ∧
    classify_row "Transport" "Gas Station" = "Private Transportation" := by
  constructor
  · rw [transportation_classification.1 "Transport" "Metro Transit Pass"
      (by decide) (by decide)]
    exact (transportation_classification.2.1 "Metro Transit Pass").1
      ⟨"metro", by simp [public_transport_keywords], by decide⟩
  · rw [transportation_classification.1 "Transport" "Gas Station"
      (by decide) (by decide)]
    exact (transportation_classification.2.1 "Gas Station").2 (by decide)

/-- Whether a pattern character matches a text character.  Models the
regular-expression semantics of `Series.str.contains` for the pattern
constructs this development exercises: a literal character matches
itself and '.' matches any character. -/
def charMatches (p c : Char) : Bool := p == '.' || p == c

/-- Whether the pattern matches at the start of the text. -/
def matchesHere : List Char → List Char → Bool
  | [], _ => true
  | _ :: _, [] => false
  | p :: ps, c :: cs => charMatches p c && matchesHere ps cs

/-- Embedding of `Series.str.contains(pat)` (regex search): the pattern
matches at some position of the text.  Only literal characters and the
'.' wildcard are modelled; no claim exercises other regex constructs. -/
def searchPat (pat : List Char) : List Char → Bool
  | [] => matchesHere pat []
  | c :: t => matchesHere pat (c :: t) || searchPat pat t

/-- The regular-expression metacharacters of Python's `re`. -/
def regexMeta (c : Char) : Bool :=
  c == '.' || c == '^' || c == '$' || c == '*' || c == '+' || c == '?' ||
  c == Char.ofNat 123 || c == Char.ofNat 125 || c == '[' || c == ']' ||
  c == '(' || c == ')' || c == '|' || c == '\\'

/-- One row of the subcategory breakdown table. -/
structure BreakdownRow where
  subcategory : String
  amount : ℚ
  percentage : ℚ
deriving DecidableEq, Repr

/-- The distinct subcategory keys of a selection, in first-occurrence
order.  Embeds the group keys of `groupby('subcategory')`; no claim
observes the enumeration order of groups (the result is re-sorted by
amount). -/
def distinctKeys (l : List String) : List String := l.foldl insertDistinct []

/-- The per-subcategory absolute spending totals of
`expenses.groupby('subcategory')['abs_value'].sum()`. -/
def groupTotals (expenses : List (Txn × String)) : List (String × ℚ) :=
  (distinctKeys (expenses.map Prod.snd)).map (fun k =>
    (k, ((expenses.filter (fun r => r.2 == k)).map (fun r => |r.1.value|)).sum))

/-- Insert a row into a list sorted descending by amount. -/
def insertByAmount (r : BreakdownRow) : List BreakdownRow → List BreakdownRow
  | [] => [r]
  | s :: t => if s.amount < r.amount then r :: s :: t else s :: insertByAmount r t

/-- Embedding of `sort_values('amount', ascending=False)`.  The relative
order of equal amounts is unspecified in the source and unobserved by
any claim. -/
def sortByAmountDesc (l : List BreakdownRow) : List BreakdownRow :=
  l.foldr insertByAmount []

/-- The grouping, percentage and sorting tail of
`calculate_subcategory_breakdown` applied to the selected expense rows. -/
def breakdownFromSelection (expenses : List (Txn × String)) : List BreakdownRow :=
  let totals := groupTotals expenses
  let category_total := (totals.map Prod.snd).sum
  sortByAmountDesc (totals.map (fun kt =>
    ⟨kt.1, kt.2, if 0 < category_total then kt.2 / category_total * 100 else 0⟩))

/-- Embedding of `calculate_subcategory_breakdown`: fails on an empty
set; otherwise classifies, selects the expense rows whose lower-cased
category is matched by the lower-cased filter via `str.contains`
(a regex search), and computes amounts, percentages of the filtered
total, sorted descending by amount.  An empty selection yields the empty
table. -/
def calculate_subcategory_breakdown (df : List Txn) (category : String) :
    Except String (List BreakdownRow) :=
  if df.isEmpty then .error "DataFrame cannot be empty"
  else
    match add_subcategory_column df with
    | .error e => .error e
    | .ok rows =>
        .ok (breakdownFromSelection (rows.filter (fun r =>
          decide (r.1.value < 0) &&
            searchPat (lowerData category) (lowerData r.1.category))))

/-- Modelled from the spec's words for C10: identical to
`calculate_subcategory_breakdown` except that the category filter is a
case-insensitive literal substring, as the claim states, rather than a
regular-expression search. -/
def breakdown_literal (df : List Txn) (category : String) :
    Except String (List BreakdownRow) :=
  if df.isEmpty then .error "DataFrame cannot be empty"
  else
    match add_subcategory_column df with
    | .error e => .error e
    | .ok rows =>
        .ok (breakdownFromSelection (rows.filter (fun r =>
          decide (r.1.value < 0) &&
            containsSub (lowerData category) (lowerData r.1.category))))

set_option maxRecDepth 1000000 in
/-- C10 counterexample: with the filter string ".", no category contains
the filter as a literal substring, so the claim predicts an empty
breakdown; the code treats the filter as a regular expression, "."
matches "transport", and the breakdown is non-empty. -/
theorem breakdown_filter_counterexample :
    containsSub ".".data (lowerData "Transport") = false ∧
    calculate_subcategory_breakdown
        [⟨⟨2026, 1, 10⟩, "Gas Station", "Transport", -50⟩] "." =
      .ok [⟨"Private Transportation", 50, 100⟩] := by
  constructor
  · decide
  · with_unfolding_all decide

theorem matchesHere_of_no_meta (pat : List Char)
    (hpat : ∀ c ∈ pat, regexMeta c = false) (s : List Char) :
    matchesHere pat s = isPrefixOfC pat s := by
  induction pat generalizing s with
  | nil => cases s <;> rfl
  | cons p ps ih =>
    cases s with
    | nil => rfl
    | cons c cs =>
      have hp : regexMeta p = false := hpat p (List.mem_cons_self p ps)
      have hdot : (p == '.') = false := by
        by_contra hb
        rw [Bool.not_eq_false, beq_iff_eq] at hb
        subst hb
        simp [regexMeta] at hp
      rw [matchesHere, isPrefixOfC, charMatches, hdot, Bool.false_or,
        ih (fun c hc => hpat c (List.mem_cons_of_mem p hc))]

theorem searchPat_of_no_meta (pat : List Char)
    (hpat : ∀ c ∈ pat, regexMeta c = false) (s : List Char) :
    searchPat pat s = containsSub pat s := by
  induction s with
  | nil => rw [searchPat, containsSub, matchesHere_of_no_meta pat hpat]
  | cons c t ih =>
    rw [searchPat, containsSub, matchesHere_of_no_meta pat hpat, ih]

/-- C10 amended: the breakdown on an empty transaction set fails; for a
filter without regular-expression metacharacters the code's selection
coincides with the claim's (expense transactions whose category contains
the filter as a case-insensitive literal substring); and when no
transaction is selected the result is the empty table rather than an
error. -/
theorem subcategory_breakdown_selection :
    (∀ category, calculate_subcategory_breakdown [] category =
      .error "DataFrame cannot be empty") ∧
    (∀ (df : List Txn) (category : String),
      (∀ c ∈ lowerData category, regexMeta c = false) →
      calculate_subcategory_breakdown df category =
        breakdown_literal df category) ∧
    (∀ (df : List Txn) (category : String), df ≠ [] →
      (∀ t ∈ df, ¬(t.value < 0 ∧
        searchPat (lowerData category) (lowerData t.category) = true)) →
      calculate_subcategory_breakdown df category = .ok []) := by
  refine ⟨fun category => rfl, ?_, ?_⟩
  · intro df category hmeta
    unfold calculate_subcategory_breakdown breakdown_literal
    rcases df with _ | ⟨t, ts⟩
    · rfl
    · simp only [List.isEmpty_cons, Bool.false_eq_true, if_false]
      rcases hadd : add_subcategory_column (t :: ts) with e | rows
      · rfl
      · have hfilter : (rows.filter (fun r =>
            decide (r.1.value < 0) &&
              searchPat (lowerData category) (lowerData r.1.category))) =
            (rows.filter (fun r =>
              decide (r.1.value < 0) &&
                containsSub (lowerData category) (lowerData r.1.category))) := by
          apply List.filter_congr
          intro r _
          rw [searchPat_of_no_meta (lowerData category) hmeta]
        dsimp only
        rw [hfilter]
  · intro df category hdf hsel
    unfold calculate_subcategory_breakdown
    rcases df with _ | ⟨t, ts⟩
    · exact absurd rfl hdf
    · simp only [List.isEmpty_cons, Bool.false_eq_true, if_false]
      rcases hadd : add_subcategory_column (t :: ts) with e | rows
      · exact absurd hadd (by simp [add_subcategory_column])
      · have hrows : rows = (t :: ts).map
            (fun t => (t, classify_row t.category t.description)) := by
          unfold add_subcategory_column at hadd
          simp only [List.isEmpty_cons, Bool.false_eq_true, if_false,
            Except.ok.injEq] at hadd
          exact hadd.symm
        have hfilter : (rows.filter (fun r =>
            decide (r.1.value < 0) &&
              searchPat (lowerData category) (lowerData r.1.category))) = [] := by
          rw [List.filter_eq_nil_iff]
          intro r hr
          rw [hrows] at hr
          rcases List.mem_map.mp hr with ⟨u, hu, hur⟩
          subst hur
          simp only [Bool.and_eq_true, decide_eq_true_eq, not_and]
          intro hval hsearch
          exact (hsel u hu) ⟨hval, hsearch⟩
        dsimp only
        rw [hfilter]
        rfl

/-- Witness for `subcategory_breakdown_selection`: the literal filter
"transport" (no metacharacters) agrees with the spec's literal-substring
selection on a concrete set, and a non-matching filter yields the empty
table. -/
theorem subcategory_breakdown_selection_witness :
    calculate_subcategory_breakdown
        [⟨⟨2026, 1, 10⟩, "Gas Station", "Transport", -50⟩] "transport" =
      breakdown_literal
        [⟨⟨2026, 1, 10⟩, "Gas Station", "Transport", -50⟩] "transport" ∧
    calculate_subcategory_breakdown
        [⟨⟨2026, 1, 10⟩, "Gas Station", "Transport", -50⟩] "food" = .ok [] :=
  ⟨subcategory_breakdown_selection.2.1 _ "transport" (by decide),
   subcategory_breakdown_selection.2.2 _ "food" (by decide)
     (by intro t ht
         simp only [List.mem_singleton] at ht
         subst ht
         decide)⟩

theorem sum_map_insertByAmount (f : BreakdownRow → ℚ) (r : BreakdownRow)
    (l : List BreakdownRow) :
    ((insertByAmount r l).map f).sum = f r + (l.map f).sum := by
  induction l with
  | nil => simp [insertByAmount]
  | cons s t ih =>
    rw [insertByAmount]
    split
    · simp
    · simp only [List.map_cons, List.sum_cons, ih]
      ring

theorem sum_map_sortByAmountDesc (f : BreakdownRow → ℚ) (l : List BreakdownRow) :
    ((sortByAmountDesc l).map f).sum = (l.map f).sum := by
  induction l with
  | nil => rfl
  | cons s t ih =>
    rw [sortByAmountDesc, List.foldr_cons, sum_map_insertByAmount,
      List.map_cons, List.sum_cons]
    rw [sortByAmountDesc] at ih
    rw [ih]

theorem pct_sum_eq (l : List (String × ℚ)) (T : ℚ) :
    (l.map (fun kt => kt.2 / T * 100)).sum = (l.map Prod.snd).sum / T * 100 := by
  induction l with
  | nil => simp
  | cons kt t ih =>
    simp only [List.map_cons, List.sum_cons, ih]
    ring

theorem mem_distinctKeys {x : String} {l : List String} :
    x ∈ distinctKeys l ↔ x ∈ l := by
  unfold distinctKeys
  rw [mem_foldl_insertDistinct]
  simp

theorem groupTotals_pos (sel : List (Txn × String))
    (hneg : ∀ r ∈ sel, (r : Txn × String).1.value < 0) :
    ∀ kt ∈ groupTotals sel, 0 < (kt : String × ℚ).2 := by
  intro kt hkt
  unfold groupTotals at hkt
  rcases List.mem_map.mp hkt with ⟨k, hk, hktk⟩
  subst hktk
  rcases List.mem_map.mp (mem_distinctKeys.mp hk) with ⟨r, hr, hrk⟩
  have hrg : r ∈ sel.filter (fun r => r.2 == k) :=
    List.mem_filter.mpr ⟨hr, by simp [hrk]⟩
  have habs : |r.1.value| ∈
      (sel.filter (fun r => r.2 == k)).map (fun r => |r.1.value|) :=
    List.mem_map.mpr ⟨r, hrg, rfl⟩
  have hle : |r.1.value| ≤
      ((sel.filter (fun r => r.2 == k)).map (fun r => |r.1.value|)).sum :=
    List.single_le_sum (by intro x hx
                           rcases List.mem_map.mp hx with ⟨u, _, hux⟩
                           subst hux
                           exact abs_nonneg _) _ habs
  have hpos : 0 < |r.1.value| :=
    abs_pos.mpr (ne_of_lt (hneg r hr))
  exact lt_of_lt_of_le hpos hle

/-- The percentages of a breakdown computed from a non-empty all-expense
selection sum to exactly 100. -/
theorem breakdown_pct_sum (sel : List (Txn × String))
    (hneg : ∀ r ∈ sel, (r : Txn × String).1.value < 0) (hsel : sel ≠ []) :
    ((breakdownFromSelection sel).map BreakdownRow.percentage).sum = 100 := by
  have htotpos := groupTotals_pos sel hneg
  have htotne : groupTotals sel ≠ [] := by
    rcases sel with _ | ⟨s, t⟩
    · exact absurd rfl hsel
    · unfold groupTotals
      intro hmap
      rcases List.map_eq_nil.mp hmap with hkeys
      have : s.2 ∈ distinctKeys ((s :: t).map Prod.snd) :=
        mem_distinctKeys.mpr (List.mem_map.mpr ⟨s, List.mem_cons_self s t, rfl⟩)
      rw [hkeys] at this
      exact List.not_mem_nil _ this
  have hT : 0 < ((groupTotals sel).map Prod.snd).sum := by
    apply List.sum_pos
    · intro x hx
      rcases List.mem_map.mp hx with ⟨kt, hkt, hktx⟩
      subst hktx
      exact htotpos kt hkt
    · intro hmap
      exact htotne (List.map_eq_nil.mp hmap)
  have hunfold : breakdownFromSelection sel =
      sortByAmountDesc ((groupTotals sel).map (fun kt =>
        ⟨kt.1, kt.2,
          if 0 < ((groupTotals sel).map Prod.snd).sum then
            kt.2 / ((groupTotals sel).map Prod.snd).sum * 100
          else 0⟩)) := rfl
  rw [hunfold, sum_map_sortByAmountDesc, List.map_map]
  have hcomp : (BreakdownRow.percentage ∘ fun kt : String × ℚ =>
      (⟨kt.1, kt.2,
        if 0 < ((groupTotals sel).map Prod.snd).sum then
          kt.2 / ((groupTotals sel).map Prod.snd).sum * 100
        else 0⟩ : BreakdownRow)) =
      fun kt : String × ℚ =>
        kt.2 / ((groupTotals sel).map Prod.snd).sum * 100 := by
    funext kt
    simp only [Function.comp_apply, hT, if_true]
  rw [hcomp, pct_sum_eq, div_self (ne_of_gt hT), one_mul]

/-- C6: for every transaction set and category filter whose subcategory
breakdown is non-empty, the percentages across the breakdown's rows sum
to 100 within ±0.01 (in exact arithmetic, to exactly 100). -/
theorem subcategory_percentage_sum (df : List Txn) (category : String)
    (rows : List BreakdownRow)
    (h : calculate_subcategory_breakdown df category = .ok rows)
    (hne : rows ≠ []) :
    |(rows.map BreakdownRow.percentage).sum - 100| ≤ 1 / 100 := by
  unfold calculate_subcategory_breakdown at h
  rcases df with _ | ⟨t, ts⟩
  · cases h
  simp only [List.isEmpty_cons, Bool.false_eq_true, if_false] at h
  rcases hadd : add_subcategory_column (t :: ts) with e | rows0
  · exact absurd hadd (by simp [add_subcategory_column])
  rw [hadd] at h
  dsimp only at h
  rw [Except.ok.injEq] at h
  subst h
  set sel := rows0.filter (fun r =>
    decide (r.1.value < 0) &&
      searchPat (lowerData category) (lowerData r.1.category)) with hselDef
  have hneg : ∀ r ∈ sel, (r : Txn × String).1.value < 0 := by
    intro r hr
    have := (List.mem_filter.mp hr).2
    rw [Bool.and_eq_true, decide_eq_true_eq] at this
    exact this.1
  have hselne : sel ≠ [] := by
    intro hnil
    rw [hnil] at hne
    exact hne rfl
  rw [breakdown_pct_sum sel hneg hselne]
  norm_num

set_option maxRecDepth 1000000 in
/-- Witness for `subcategory_percentage_sum` on a two-subcategory food
breakdown (amounts 30 and 20, percentages 60 and 40). -/
theorem subcategory_percentage_sum_witness :
    |(([⟨"Groceries", 30, 60⟩, ⟨"Other Food Sources", 20, 40⟩] :
        List BreakdownRow).map BreakdownRow.percentage).sum - 100| ≤ 1 / 100 :=
  subcategory_percentage_sum
    [⟨⟨2026, 1, 3⟩, "Supermarket", "Food", -30⟩,
     ⟨⟨2026, 1, 9⟩, "Restaurant", "Food", -20⟩] "food"
    [⟨"Groceries", 30, 60⟩, ⟨"Other Food Sources", 20, 40⟩]
    (by with_unfolding_all decide) (by decide)

/-- Full English month names, embedding `strftime('%B')`. -/
def monthName : Nat → String
  | 1 => "January"
  | 2 => "February"
  | 3 => "March"
  | 4 => "April"
  | 5 => "May"
  | 6 => "June"
  | 7 => "July"
  | 8 => "August"
  | 9 => "September"
  | 10 => "October"
  | 11 => "November"
  | 12 => "December"
  | _ => "Unknown"

/-- Embedding of `period.strftime('%B %Y')`: full month name, a space,
and the year's digits. -/
def formatPeriod (p : Period) : String :=
  monthName p.2 ++ " " ++ toString p.1

/-- Embedding of pandas `Series.idxmax`: the first index attaining the
maximum (`Series.max()` is the value at that index). -/
def idxmax : List ℚ → Nat
  | [] => 0
  | [_] => 0
  | x :: y :: t =>
    match (y :: t).get? (idxmax (y :: t)) with
    | some m => if x < m then idxmax (y :: t) + 1 else 0
    | none => 0

/-- Embedding of pandas `Series.idxmin`: the first index attaining the
minimum. -/
def idxmin (l : List ℚ) : Nat := idxmax (l.map Neg.neg)

/-- The month label and net income of one extreme month. -/
structure MonthMetric where
  month : String
  net_income : ℚ
deriving DecidableEq, Repr

/-- The metrics structure returned by `calculate_financial_metrics`. -/
structure Metrics where
  current_balance : ℚ
  average_monthly_savings : ℚ
  best_month : MonthMetric
  worst_month : MonthMetric
deriving DecidableEq, Repr

/-- Embedding of `calculate_financial_metrics`: balance is the sum of
all values, average monthly savings the mean of monthly net incomes,
best/worst month the rows at `idxmax`/`idxmin` of net income with labels
rendered by `strftime('%B %Y')`.  On an empty monthly summary the
pandas `idxmax` raises, embedded as `none`. -/
def calculate_financial_metrics (df : List Txn) (monthly : List SummaryRow) :
    Option Metrics :=
  match monthly with
  | [] => none
  | _ :: _ =>
    match monthly.get? (idxmax (monthly.map SummaryRow.net_income)),
        monthly.get? (idxmin (monthly.map SummaryRow.net_income)) with
    | some brow, some wrow =>
        some { current_balance := (df.map Txn.value).sum
               average_monthly_savings :=
                 (monthly.map SummaryRow.net_income).sum / (monthly.length : ℚ)
               best_month := ⟨formatPeriod brow.month, brow.net_income⟩
               worst_month := ⟨formatPeriod wrow.month, wrow.net_income⟩ }
    | _, _ => none

theorem idxmax_spec : ∀ (l : List ℚ), l ≠ [] →
    ∃ v, l.get? (idxmax l) = some v ∧ (∀ x ∈ l, x ≤ v) ∧
      ∀ j, j < idxmax l → ∀ x, l.get? j = some x → x < v := by
  intro l
  induction l with
  | nil => intro h; exact absurd rfl h
  | cons x t ih =>
    intro _
    rcases t with _ | ⟨y, t'⟩
    · refine ⟨x, rfl, ?_, ?_⟩
      · intro z hz
        simp only [List.mem_singleton] at hz
        exact le_of_eq hz
      · intro j hj
        simp [idxmax] at hj
    · rcases ih (by simp) with ⟨m, hm, hmax, hfirst⟩
      rw [idxmax, hm]
      dsimp only
      by_cases hxm : x < m
      · rw [if_pos hxm]
        refine ⟨m, by simpa using hm, ?_, ?_⟩
        · intro z hz
          rcases List.mem_cons.mp hz with heq | hz'
          · rw [heq]
            exact le_of_lt hxm
          · exact hmax z hz'
        · intro j hj z hz
          rcases j with _ | j'
          · simp only [List.get?] at hz
            rw [Option.some.injEq] at hz
            subst hz
            exact hxm
          · have hj' : j' < idxmax (y :: t') := by omega
            exact hfirst j' hj' z (by simpa using hz)
      · rw [if_neg hxm]
        push_neg at hxm
        refine ⟨x, rfl, ?_, ?_⟩
        · intro z hz
          rcases List.mem_cons.mp hz with heq | hz'
          · exact le_of_eq heq
          · exact le_trans (hmax z hz') hxm
        · intro j hj
          omega

theorem idxmin_spec (l : List ℚ) (hl : l ≠ []) :
    ∃ v, l.get? (idxmin l) = some v ∧ (∀ x ∈ l, v ≤ x) ∧
      ∀ j, j < idxmin l → ∀ x, l.get? j = some x → v < x := by
  have hmapne : l.map Neg.neg ≠ [] := by
    intro h
    exact hl (List.map_eq_nil.mp h)
  rcases idxmax_spec (l.map Neg.neg) hmapne with ⟨v', hv', hmax, hfirst⟩
  rw [List.get?_map] at hv'
  rcases hl0 : l.get? (idxmin l) with _ | v
  · rw [idxmin] at hl0
    rw [hl0] at hv'
    cases hv'
  · rw [idxmin] at hl0
    rw [hl0] at hv'
    rw [show (some v).map Neg.neg = some (-v) from rfl, Option.some.injEq] at hv'
    refine ⟨v, rfl, ?_, ?_⟩
    · intro x hx
      have := hmax (-x) (List.mem_map.mpr ⟨x, hx, rfl⟩)
      rw [← hv'] at this
      linarith
    · intro j hj x hx
      have := hfirst j hj (-x) (by rw [List.get?_map, hx]; rfl)
      rw [← hv'] at this
      linarith

theorem pLt_total (p q : Period) (hne : p ≠ q) (hnlt : ¬ pLt p q) : pLt q p := by
  rcases p with ⟨p1, p2⟩
  rcases q with ⟨q1, q2⟩
  have hne' : ¬(p1 = q1 ∧ p2 = q2) := fun hc => hne (by rw [hc.1, hc.2])
  unfold pLt at hnlt ⊢
  dsimp only at hnlt ⊢
  omega

theorem pLt_trans_local {p q r : Period} (h1 : pLt p q) (h2 : pLt q r) :
    pLt p r := by
  rcases p with ⟨p1, p2⟩
  rcases q with ⟨q1, q2⟩
  rcases r with ⟨r1, r2⟩
  unfold pLt at h1 h2 ⊢
  dsimp only at h1 h2 ⊢
  omega

theorem mem_insertPeriod {x p : Period} :
    ∀ {l : List Period}, x ∈ insertPeriod p l ↔ x = p ∨ x ∈ l := by
  intro l
  induction l with
  | nil => simp [insertPeriod]
  | cons q t ih =>
    rw [insertPeriod]
    by_cases hpq : p = q
    · subst hpq
      rw [if_pos rfl]
      simp only [List.mem_cons]
      tauto
    · rw [if_neg hpq]
      by_cases hlt : pLt p q
      · rw [if_pos hlt]
        simp only [List.mem_cons]
      · rw [if_neg hlt]
        simp only [List.mem_cons, ih]
        tauto

theorem pairwise_insertPeriod (p : Period) :
    ∀ (l : List Period), l.Pairwise pLt → (insertPeriod p l).Pairwise pLt := by
  intro l
  induction l with
  | nil => intro _; simp [insertPeriod]
  | cons q t ih =>
    intro hp
    rcases List.pairwise_cons.mp hp with ⟨hq, ht⟩
    rw [insertPeriod]
    by_cases hpq : p = q
    · subst hpq
      rw [if_pos rfl]
      exact hp
    · rw [if_neg hpq]
      by_cases hlt : pLt p q
      · rw [if_pos hlt]
        refine List.pairwise_cons.mpr ⟨?_, hp⟩
        intro x hx
        rcases List.mem_cons.mp hx with heq | hx'
        · rw [heq]
          exact hlt
        · exact pLt_trans_local hlt (hq x hx')
      · rw [if_neg hlt]
        refine List.pairwise_cons.mpr ⟨?_, ih ht⟩
        intro x hx
        rcases mem_insertPeriod.mp hx with heq | hx'
        · rw [heq]
          exact pLt_total p q hpq hlt
        · exact hq x hx'

theorem pairwise_sortedPeriods (df : List Txn) :
    (sortedPeriods df).Pairwise pLt := by
  unfold sortedPeriods
  induction df.map txnPeriod with
  | nil => simp
  | cons p t ih =>
    rw [List.foldr_cons]
    exact pairwise_insertPeriod p _ ih

theorem pairwise_monthly_summary (df : List Txn) :
    (calculate_monthly_summary df).Pairwise (fun r s => pLt r.month s.month) := by
  unfold calculate_monthly_summary
  rw [List.pairwise_map]
  exact pairwise_sortedPeriods df

theorem pairwise_get?_rel {α : Type} {R : α → α → Prop} {l : List α}
    (hp : l.Pairwise R) {i j : Nat} {a b : α} (hij : i < j)
    (ha : l.get? i = some a) (hb : l.get? j = some b) : R a b := by
  induction l generalizing i j with
  | nil => cases ha
  | cons x t ih =>
    rcases List.pairwise_cons.mp hp with ⟨hx, ht⟩
    rcases i with _ | i'
    · simp only [List.get?] at ha
      rw [Option.some.injEq] at ha
      subst ha
      rcases j with _ | j'
      · omega
      · exact hx b (List.get?_mem (by simpa using hb))
    · rcases j with _ | j'
      · omega
      · have ha' : t.get? i' = some a := by simpa using ha
        have hb' : t.get? j' = some b := by simpa using hb
        have hij' : i' < j' := by omega
        exact ih ht hij' ha' hb'

/-- C7: for every non-empty monthly summary produced from a transaction
set, metrics extraction selects a best month of maximal net income and a
worst month of minimal net income, ties resolved to the earliest period,
and renders each label as the full month name followed by the year. -/
theorem metrics_best_worst (df : List Txn) (m : Metrics)
    (h : calculate_financial_metrics df (calculate_monthly_summary df) = some m) :
    (∃ brow ∈ calculate_monthly_summary df,
      m.best_month = ⟨formatPeriod brow.month, brow.net_income⟩ ∧
      (∀ row ∈ calculate_monthly_summary df,
        row.net_income ≤ brow.net_income) ∧
      (∀ row ∈ calculate_monthly_summary df,
        row.net_income = brow.net_income → pLe brow.month row.month)) ∧
    (∃ wrow ∈ calculate_monthly_summary df,
      m.worst_month = ⟨formatPeriod wrow.month, wrow.net_income⟩ ∧
      (∀ row ∈ calculate_monthly_summary df,
        wrow.net_income ≤ row.net_income) ∧
      (∀ row ∈ calculate_monthly_summary df,
        row.net_income = wrow.net_income → pLe wrow.month row.month)) := by
  have hpair := pairwise_monthly_summary df
  unfold calculate_financial_metrics at h
  rcases hm : calculate_monthly_summary df with _ | ⟨r0, rs⟩
  · rw [hm] at h
    exact Option.noConfusion h
  rw [hm] at h hpair
  dsimp only at h
  have hne : ((r0 :: rs : List SummaryRow).map SummaryRow.net_income) ≠ [] := by
    simp
  rcases idxmax_spec _ hne with ⟨bv, hbv, hbmax, hbfirst⟩
  rcases idxmin_spec _ hne with ⟨wv, hwv, hwmin, hwfirst⟩
  rw [List.get?_map] at hbv hwv
  rcases hbrow : (r0 :: rs : List SummaryRow).get?
      (idxmax ((r0 :: rs : List SummaryRow).map SummaryRow.net_income)) with _ | brow
  · rw [hbrow] at hbv
    cases hbv
  rcases hwrow : (r0 :: rs : List SummaryRow).get?
      (idxmin ((r0 :: rs : List SummaryRow).map SummaryRow.net_income)) with _ | wrow
  · rw [hwrow] at hwv
    cases hwv
  rw [hbrow] at hbv
  rw [hwrow] at hwv
  simp only [Option.map_some', Option.some.injEq] at hbv hwv
  rw [hbrow, hwrow] at h
  rw [Option.some.injEq] at h
  subst h
  constructor
  · refine ⟨brow, List.get?_mem hbrow, rfl, ?_, ?_⟩
    · intro row hrow
      rw [hbv]
      exact hbmax row.net_income (List.mem_map.mpr ⟨row, hrow, rfl⟩)
    · intro row hrow heq
      rcases List.get?_of_mem hrow with ⟨j, hj⟩
      set bi := idxmax ((r0 :: rs : List SummaryRow).map SummaryRow.net_income)
        with hbi
      rcases lt_trichotomy j bi with hlt | hByeq | hgt
      · exfalso
        have := hbfirst j (by omega) row.net_income
          (by rw [List.get?_map, hj]; rfl)
        rw [← hbv, heq] at this
        exact lt_irrefl _ this
      · subst hByeq
        rw [hj] at hbrow
        rw [Option.some.injEq] at hbrow
        subst hbrow
        exact Or.inr rfl
      · exact Or.inl (pairwise_get?_rel hpair hgt hbrow hj)
  · refine ⟨wrow, List.get?_mem hwrow, rfl, ?_, ?_⟩
    · intro row hrow
      rw [hwv]
      exact hwmin row.net_income (List.mem_map.mpr ⟨row, hrow, rfl⟩)
    · intro row hrow heq
      rcases List.get?_of_mem hrow with ⟨j, hj⟩
      set wi := idxmin ((r0 :: rs : List SummaryRow).map SummaryRow.net_income)
        with hwi
      rcases lt_trichotomy j wi with hlt | hWyeq | hgt
      · exfalso
        have := hwfirst j (by omega) row.net_income
          (by rw [List.get?_map, hj]; rfl)
        rw [← hwv, heq] at this
        exact lt_irrefl _ this
      · subst hWyeq
        rw [hj] at hwrow
        rw [Option.some.injEq] at hwrow
        subst hwrow
        exact Or.inr rfl
      · exact Or.inl (pairwise_get?_rel hpair hgt hwrow hj)

set_option maxRecDepth 1000000 in
/-- Witness for `metrics_best_worst` on a two-month dataset with tied
net incomes (both 100): best and worst are both January 2026, the
earlier period. -/
theorem metrics_best_worst_witness :
    (∃ brow ∈ calculate_monthly_summary
        [⟨⟨2026, 1, 5⟩, "a", "A", 100⟩, ⟨⟨2026, 2, 5⟩, "b", "B", 100⟩],
      (Metrics.mk 200 100 ⟨"January 2026", 100⟩ ⟨"January 2026", 100⟩).best_month =
        ⟨formatPeriod brow.month, brow.net_income⟩ ∧
      (∀ row ∈ calculate_monthly_summary
          [⟨⟨2026, 1, 5⟩, "a", "A", 100⟩, ⟨⟨2026, 2, 5⟩, "b", "B", 100⟩],
        row.net_income ≤ brow.net_income) ∧
      (∀ row ∈ calculate_monthly_summary
          [⟨⟨2026, 1, 5⟩, "a", "A", 100⟩, ⟨⟨2026, 2, 5⟩, "b", "B", 100⟩],
        row.net_income = brow.net_income → pLe brow.month row.month)) ∧
    (∃ wrow ∈ calculate_monthly_summary
        [⟨⟨2026, 1, 5⟩, "a", "A", 100⟩, ⟨⟨2026, 2, 5⟩, "b", "B", 100⟩],
      (Metrics.mk 200 100 ⟨"January 2026", 100⟩ ⟨"January 2026", 100⟩).worst_month =
        ⟨formatPeriod wrow.month, wrow.net_income⟩ ∧
      (∀ row ∈ calculate_monthly_summary
          [⟨⟨2026, 1, 5⟩, "a", "A", 100⟩, ⟨⟨2026, 2, 5⟩, "b", "B", 100⟩],
        wrow.net_income ≤ row.net_income) ∧
      (∀ row ∈ calculate_monthly_summary
          [⟨⟨2026, 1, 5⟩, "a", "A", 100⟩, ⟨⟨2026, 2, 5⟩, "b", "B", 100⟩],
        row.net_income = wrow.net_income → pLe wrow.month row.month)) :=
  metrics_best_worst
    [⟨⟨2026, 1, 5⟩, "a", "A", 100⟩, ⟨⟨2026, 2, 5⟩, "b", "B", 100⟩]
    (Metrics.mk 200 100 ⟨"January 2026", 100⟩ ⟨"January 2026", 100⟩)
    (by with_unfolding_all decide)

end ExpenseApp
